import Mathlib

/-!
Verification of the appcast channel filter (`clean_appcast.py`).

The script parses an XML document, removes from every RSS `channel` element
(found anywhere strictly below the root, via `root.findall('.//channel')`)
each direct `item` child whose first direct child in the Sparkle namespace
named `channel` has text equal to the target channel name, counts the
removals, writes the document back, and reports the count.  The embedding
below models XML elements as a rose tree of (tag, text, children), the file
system as an association list from paths to parsed documents, and a program
run as the resulting (exit code, stdout, stderr, file system).
-/

namespace AppcastClean

/-- An XML element: a tag (with the `\x7bnamespace\x7d` prefix baked into the
string, exactly as `xml.etree.ElementTree` represents namespaced tags), the
text directly inside the element before any child (`None` when absent), and
the list of direct child elements in document order. -/
inductive XML where
  | elem (tag : String) (text : Option String) (children : List XML)

def XML.tag : XML → String
  | .elem t _ _ => t

def XML.text : XML → Option String
  | .elem _ x _ => x

def XML.children : XML → List XML
  | .elem _ _ ch => ch

/-- `SPARKLE_NS = "http://www.andymatuschak.org/xml-namespaces/sparkle"`. -/
def SPARKLE_NS : String := "http://www.andymatuschak.org/xml-namespaces/sparkle"

/-- The fully qualified tag `ElementTree` uses for `sparkle:channel`
elements, i.e. the namespace in braces followed by the local name. -/
def sparkleChannelTag : String :=
  "\x7bhttp://www.andymatuschak.org/xml-namespaces/sparkle\x7dchannel"

/-- `parent.find(tag)`: the first direct child whose tag is `t`, if any. -/
def findChild (t : String) : List XML → Option XML
  | [] => none
  | x :: xs => if x.tag == t then some x else findChild t xs

/-- The removal test of lines 40-43 of the script: the child is an `item`
whose first direct `sparkle:channel` child exists and has text equal to the
target (`channel_elem is not None and channel_elem.text == channel_to_remove`;
a `None` text never equals a string). -/
def isMatchingItem (c : String) (x : XML) : Bool :=
  x.tag == "item" &&
    match findChild sparkleChannelTag x.children with
    | some e => e.text == some c
    | none => false

mutual

/-- The effect of the filtering loop on one element of the tree: an element
tagged `channel` (every such element strictly below the root is visited by
`root.findall('.//channel')`) has its matching direct `item` children
removed; every element keeps its tag and text, and the surviving children
are processed recursively (nested `channel` elements are also in the
`findall` result). -/
def cleanElem (c : String) : XML → XML
  | .elem t tx ch =>
      .elem t tx (if t == "channel" then cleanFiltered c ch else cleanChildren c ch)

/-- Children of a visited `channel` element: matching items are removed (as
by `channel.remove(item)`), the rest are kept in order and processed
recursively. -/
def cleanFiltered (c : String) : List XML → List XML
  | [] => []
  | x :: xs =>
      if isMatchingItem c x then cleanFiltered c xs
      else cleanElem c x :: cleanFiltered c xs

/-- Children of a non-`channel` element are all kept, each processed
recursively. -/
def cleanChildren (c : String) : List XML → List XML
  | [] => []
  | x :: xs => cleanElem c x :: cleanChildren c xs

end

/-- The whole-document transformation: `root.findall('.//channel')` yields
only elements strictly below the root, so the root's own direct children are
never filtered, even when the root is itself tagged `channel`. -/
def cleanRoot (c : String) : XML → XML
  | .elem t tx ch => .elem t tx (cleanChildren c ch)

mutual

/-- The number of removals the loop performs at this element and inside it:
each element tagged `channel` contributes one removal per matching direct
`item` child (the `items` snapshot is taken before any removal below that
element, and a channel's direct children are mutated only when that channel
itself is processed, so the count over the parsed tree is exact even for
channels that an earlier removal detached from the document). -/
def countElem (c : String) : XML → Nat
  | .elem t _ ch =>
      (if t == "channel" then ch.countP (isMatchingItem c) else 0) + countChildren c ch

def countChildren (c : String) : List XML → Nat
  | [] => 0
  | x :: xs => countElem c x + countChildren c xs

end

/-- `removed_count` for a whole run: removals happen only at elements
strictly below the root. -/
def countRoot (c : String) : XML → Nat
  | .elem _ _ ch => countChildren c ch

/-- The observable outcome of one invocation: exit status, lines printed to
standard output, lines printed to the error stream, and the file system
after the run (paths mapped to the parsed document stored at each). -/
structure RunResult where
  exitCode : Nat
  stdout : List String
  stderr : List String
  fs : List (String × XML)

/-- Reading a path from the modelled file system; `none` plays the role of
`FileNotFoundError`. -/
def lookupFS : List (String × XML) → String → Option XML
  | [], _ => none
  | (q, d) :: rest, p => if q == p then some d else lookupFS rest p

/-- `tree.write(appcast_path, ...)`: overwrite the document at `p`, creating
the entry when absent. -/
def writeFS : List (String × XML) → String → XML → List (String × XML)
  | [], p, d => [(p, d)]
  | (q, e) :: rest, p, d =>
      if q == p then (p, d) :: rest else (q, e) :: writeFS rest p d

/-- The success line
`f"✓ Removed {removed_count} '{channel_to_remove}' channel release(s) from {appcast_path}"`. -/
def successMessage (removed : Nat) (c p : String) : String :=
  "✓ Removed " ++ toString removed ++ " \x27" ++ c ++
    "\x27 channel release(s) from " ++ p

/-- `clean_appcast(appcast_path, channel_to_remove)`: parse the file (error
out with `FileNotFoundError` → message and exit 1 when the path is absent),
remove the matching items, write the document back to the same path, and
print the removed count. -/
def clean_appcast (fs : List (String × XML)) (appcast_path channel_to_remove : String) :
    RunResult :=
  match lookupFS fs appcast_path with
  | none => ⟨1, [], ["✗ File not found: " ++ appcast_path], fs⟩
  | some root =>
      ⟨0, [successMessage (countRoot channel_to_remove root) channel_to_remove appcast_path],
        [], writeFS fs appcast_path (cleanRoot channel_to_remove root)⟩

/-- The two lines printed by `main` when the argument count is wrong. -/
def usageLines : List String :=
  ["Usage: python clean_appcast.py <appcast_file> <channel_name>",
   "Example: python clean_appcast.py appcast.xml edge"]

/-- `main()`: `sys.argv` must have exactly three entries (program name plus
two positional arguments); otherwise the usage text goes to standard output
and the process exits with status 1 without touching the file system. -/
def main (argv : List String) (fs : List (String × XML)) : RunResult :=
  if argv.length != 3 then ⟨1, usageLines, [], fs⟩
  else clean_appcast fs (argv.getD 1 "") (argv.getD 2 "")

mutual

/-- An element together with all elements strictly inside it, in document
order. -/
def elemAndDesc : XML → List XML
  | .elem t tx ch => .elem t tx ch :: descList ch

def descList : List XML → List XML
  | [] => []
  | x :: xs => elemAndDesc x ++ descList xs

end

/-- All elements strictly below `x` — exactly the candidates
`root.findall('.//channel')` draws from when `x` is the root. -/
def properDesc (x : XML) : List XML := descList x.children

/-- Stated from the claim text: the element has SOME direct child in the
Sparkle namespace named `channel` whose text equals `c` (not merely the
first such child). -/
def hasSparkleChildText (c : String) (x : XML) : Bool :=
  x.children.any (fun e => e.tag == sparkleChannelTag && e.text == some c)

/-- Claim C1's invariant target, read literally over the whole written
document: some element tagged `channel` anywhere (the root included) has a
direct `item` child with some Sparkle-channel child whose text equals
`c`. -/
def existsBadItem (c : String) (doc : XML) : Bool :=
  (elemAndDesc doc).any (fun e =>
    e.tag == "channel" &&
      e.children.any (fun it => it.tag == "item" && hasSparkleChildText c it))

/-- Claim C2's K, read literally from the claim: the number of direct
`item` children, across all elements tagged `channel` anywhere in the
document, that have some Sparkle-channel child with text equal to the
target. -/
def specCountAny (c : String) (doc : XML) : Nat :=
  (((elemAndDesc doc).filter (fun e => e.tag == "channel")).map
    (fun e => e.children.countP (fun it => it.tag == "item" && hasSparkleChildText c it))).sum

/-- The corrected K: over the feed channels the filter actually visits
(elements tagged `channel` strictly below the root), the number of direct
`item` children whose first Sparkle-channel child has text equal to the
target. -/
def specCountFirst (c : String) (doc : XML) : Nat :=
  (((properDesc doc).filter (fun e => e.tag == "channel")).map
    (fun e => e.children.countP (isMatchingItem c))).sum

/-- Scanner for claim C7's premise: some element anywhere in the document
(root included) is an `item` with some Sparkle-channel child whose text
equals `c`. -/
def existsMatchingItemAnywhere (c : String) (doc : XML) : Bool :=
  (elemAndDesc doc).any (fun e => e.tag == "item" && hasSparkleChildText c e)

/-- Structural induction on the rose tree of elements, with the inductive
hypothesis available for every direct child. -/
theorem XML.indOn (motive : XML → Prop)
    (step : ∀ t tx ch, (∀ y ∈ ch, motive y) → motive (XML.elem t tx ch)) :
    ∀ x, motive x := by
  have key : ∀ n (x : XML), sizeOf x ≤ n → motive x := by
    intro n
    induction n with
    | zero =>
        intro x hx
        cases x with
        | elem t tx ch => simp [XML.elem.sizeOf_spec] at hx
    | succ n ih =>
        intro x hx
        cases x with
        | elem t tx ch =>
            apply step
            intro y hy
            apply ih
            have h1 := List.sizeOf_lt_of_mem hy
            simp [XML.elem.sizeOf_spec] at hx
            omega
  intro x
  exact key (sizeOf x) x le_rfl

mutual

def XML.beq : XML → XML → Bool
  | .elem t1 x1 c1, .elem t2 x2 c2 => t1 == t2 && x1 == x2 && XML.beqList c1 c2

def XML.beqList : List XML → List XML → Bool
  | [], [] => true
  | x :: xs, y :: ys => XML.beq x y && XML.beqList xs ys
  | _, _ => false

end

theorem XML.beq_iff : ∀ x y : XML, XML.beq x y = true ↔ x = y := by
  have lstep : ∀ xs : List XML, (∀ y ∈ xs, ∀ z, XML.beq y z = true ↔ y = z) →
      ∀ ys, XML.beqList xs ys = true ↔ xs = ys := by
    intro xs
    induction xs with
    | nil =>
        intro _ ys
        cases ys <;> simp [XML.beqList]
    | cons x xs ih =>
        intro h ys
        cases ys with
        | nil => simp [XML.beqList]
        | cons y ys =>
            rw [XML.beqList]
            rw [Bool.and_eq_true, h x (by simp) y,
              ih (fun a ha z => h a (by simp [ha]) z) ys]
            simp
  intro x
  induction x using XML.indOn with
  | step t tx ch ih =>
      intro y
      cases y with
      | elem t2 tx2 ch2 =>
          rw [XML.beq, Bool.and_eq_true, Bool.and_eq_true, lstep ch ih ch2]
          simp [XML.elem.injEq, and_assoc]

instance : DecidableEq XML := fun x y =>
  decidable_of_iff _ (XML.beq_iff x y)

theorem tag_cleanElem (c : String) (x : XML) : (cleanElem c x).tag = x.tag := by
  cases x with
  | elem t tx ch => simp [cleanElem, XML.tag]

theorem text_cleanElem (c : String) (x : XML) : (cleanElem c x).text = x.text := by
  cases x with
  | elem t tx ch => simp [cleanElem, XML.text]

theorem cleanChildren_eq_map (c : String) (l : List XML) :
    cleanChildren c l = l.map (cleanElem c) := by
  induction l with
  | nil => simp [cleanChildren]
  | cons x xs ih => simp [cleanChildren, ih]

theorem cleanFiltered_eq (c : String) (l : List XML) :
    cleanFiltered c l =
      (l.filter (fun y => !(isMatchingItem c y))).map (cleanElem c) := by
  induction l with
  | nil => simp [cleanFiltered]
  | cons x xs ih =>
      by_cases h : isMatchingItem c x
      · simp [cleanFiltered, h, List.filter_cons, ih]
      · simp at h
        simp [cleanFiltered, h, List.filter_cons, ih]

theorem cleanElem_eq_filterMap (c t : String) (tx : Option String) (ch : List XML) :
    cleanElem c (XML.elem t tx ch) =
      XML.elem t tx
        ((if t == "channel" then ch.filter (fun y => !(isMatchingItem c y)) else ch).map
          (cleanElem c)) := by
  by_cases h : t == "channel"
  · simp [cleanElem, h, cleanFiltered_eq]
  · simp only [Bool.not_eq_true] at h
    simp [cleanElem, h, cleanChildren_eq_map]

theorem children_cleanElem (c t : String) (tx : Option String) (ch : List XML) :
    (cleanElem c (XML.elem t tx ch)).children =
      ((if t == "channel" then ch.filter (fun y => !(isMatchingItem c y)) else ch).map
        (cleanElem c)) := by
  by_cases h : t == "channel"
  · simp [cleanElem, XML.children, h, cleanFiltered_eq]
  · simp only [Bool.not_eq_true] at h
    simp [cleanElem, XML.children, h, cleanChildren_eq_map]

theorem tag_of_isMatchingItem {c : String} {x : XML} (h : isMatchingItem c x = true) :
    x.tag = "item" := by
  rw [isMatchingItem, Bool.and_eq_true] at h
  simpa using h.1

theorem findChild_map (t : String) (f : XML → XML) (hf : ∀ x, (f x).tag = x.tag)
    (l : List XML) : findChild t (l.map f) = (findChild t l).map f := by
  induction l with
  | nil => simp [findChild]
  | cons x xs ih =>
      by_cases h : x.tag == t
      · simp [findChild, hf, h]
      · simp only [Bool.not_eq_true] at h
        simp [findChild, hf, h, ih]

theorem findChild_filter_not_matching (c : String) (l : List XML) :
    findChild sparkleChannelTag (l.filter (fun y => !(isMatchingItem c y))) =
      findChild sparkleChannelTag l := by
  induction l with
  | nil => simp
  | cons x xs ih =>
      by_cases h : isMatchingItem c x
      · have ht : (x.tag == sparkleChannelTag) = false := by
          rw [tag_of_isMatchingItem h]
          decide
        simp [List.filter_cons, h, findChild, ht, ih]
      · simp at h
        by_cases h2 : x.tag == sparkleChannelTag
        · simp [List.filter_cons, h, findChild, h2]
        · simp only [Bool.not_eq_true] at h2
          simp [List.filter_cons, h, findChild, h2, ih]

theorem isMatchingItem_cleanElem (c : String) (x : XML) :
    isMatchingItem c (cleanElem c x) = isMatchingItem c x := by
  cases x with
  | elem t tx ch =>
      rw [isMatchingItem, isMatchingItem]
      have htag : (cleanElem c (XML.elem t tx ch)).tag = t := by
        simpa [XML.tag] using tag_cleanElem c (XML.elem t tx ch)
      rw [htag, children_cleanElem, findChild_map _ _ (tag_cleanElem c)]
      have hfc : findChild sparkleChannelTag
          (if t == "channel" then ch.filter (fun y => !(isMatchingItem c y)) else ch) =
          findChild sparkleChannelTag ch := by
        by_cases h : t == "channel"
        · simp [h, findChild_filter_not_matching]
        · simp only [Bool.not_eq_true] at h
          simp [h]
      rw [hfc, XML.tag]
      cases hres : findChild sparkleChannelTag ch with
      | none => simp [XML.children, hres]
      | some e => simp [XML.children, hres, text_cleanElem]

theorem cleanElem_mem_of_not_matching {c : String} {x y : XML} (hy : y ∈ x.children)
    (hm : isMatchingItem c y = false) : cleanElem c y ∈ (cleanElem c x).children := by
  cases x with
  | elem t tx ch =>
      rw [children_cleanElem]
      apply List.mem_map_of_mem
      by_cases h : t == "channel"
      · simp only [h, if_pos]
        simp only [XML.children] at hy
        exact List.mem_filter.mpr ⟨hy, by simp [hm]⟩
      · simp only [Bool.not_eq_true] at h
        simpa [h] using hy

theorem self_mem_elemAndDesc (x : XML) : x ∈ elemAndDesc x := by
  cases x with
  | elem t tx ch => simp [elemAndDesc]

theorem mem_descList {e : XML} {l : List XML} :
    e ∈ descList l ↔ ∃ y ∈ l, e ∈ elemAndDesc y := by
  induction l with
  | nil => simp [descList]
  | cons x xs ih => simp [descList, ih]

theorem noMatch_in_cleanElem (c : String) (x : XML) :
    ∀ e ∈ elemAndDesc (cleanElem c x), e.tag = "channel" →
      ∀ it ∈ e.children, isMatchingItem c it = false := by
  induction x using XML.indOn with
  | step t tx ch ih =>
      intro e he htag it hit
      have hform : cleanElem c (XML.elem t tx ch) =
          XML.elem t tx
            ((if t == "channel" then ch.filter (fun y => !(isMatchingItem c y)) else ch).map
              (cleanElem c)) := by
        by_cases h : t == "channel"
        · simp [cleanElem, h, cleanFiltered_eq]
        · simp only [Bool.not_eq_true] at h
          simp [cleanElem, h, cleanChildren_eq_map]
      rw [hform, elemAndDesc] at he
      rcases List.mem_cons.mp he with he | he
      · subst he
        simp only [XML.tag] at htag
        subst htag
        simp only [beq_self_eq_true, if_pos, XML.children] at hit
        rcases List.mem_map.mp hit with ⟨y, hy, rfl⟩
        rcases List.mem_filter.mp hy with ⟨_, hny⟩
        rw [isMatchingItem_cleanElem]
        simpa using hny
      · rcases mem_descList.mp he with ⟨z, hz, hez⟩
        rcases List.mem_map.mp hz with ⟨y, hy, rfl⟩
        have hych : y ∈ ch := by
          by_cases h : t == "channel"
          · rw [if_pos h] at hy
            exact (List.mem_filter.mp hy).1
          · simp only [Bool.not_eq_true] at h
            rwa [h] at hy
        exact ih y hych e hez htag it hit

theorem countChildren_eq_sum (c : String) (l : List XML) :
    countChildren c l = (l.map (countElem c)).sum := by
  induction l with
  | nil => simp [countChildren]
  | cons x xs ih => simp [countChildren, ih]

theorem spec_sum_descList (c : String) (l : List XML) :
    (((descList l).filter (fun e => e.tag == "channel")).map
        (fun e => e.children.countP (isMatchingItem c))).sum =
      (l.map (fun y =>
        (((elemAndDesc y).filter (fun e => e.tag == "channel")).map
          (fun e => e.children.countP (isMatchingItem c))).sum)).sum := by
  induction l with
  | nil => simp [descList]
  | cons x xs ih => simp [descList, List.filter_append, ih]

theorem countElem_eq_spec (c : String) (x : XML) :
    countElem c x =
      (((elemAndDesc x).filter (fun e => e.tag == "channel")).map
        (fun e => e.children.countP (isMatchingItem c))).sum := by
  induction x using XML.indOn with
  | step t tx ch ih =>
      rw [countElem, elemAndDesc, countChildren_eq_sum]
      have hmap : ch.map (countElem c) = ch.map (fun y =>
          (((elemAndDesc y).filter (fun e => e.tag == "channel")).map
            (fun e => e.children.countP (isMatchingItem c))).sum) :=
        List.map_congr_left (fun y hy => ih y hy)
      rw [hmap, ← spec_sum_descList, List.filter_cons]
      by_cases h : t == "channel"
      · simp [XML.tag, h, XML.children]
      · simp only [Bool.not_eq_true] at h
        simp [XML.tag, h, XML.children]

theorem cleanElem_idem (c : String) (x : XML) :
    cleanElem c (cleanElem c x) = cleanElem c x := by
  induction x using XML.indOn with
  | step t tx ch ih =>
      set l0 := (if t == "channel" then ch.filter (fun y => !(isMatchingItem c y)) else ch)
        with hl0
      have hl0sub : ∀ y ∈ l0, y ∈ ch := by
        intro y hy
        by_cases h : t == "channel"
        · rw [hl0, if_pos h] at hy
          exact (List.mem_filter.mp hy).1
        · rw [hl0, if_neg h] at hy
          exact hy
      have hmapstep : (l0.map (cleanElem c)).map (cleanElem c) = l0.map (cleanElem c) := by
        rw [List.map_map]
        apply List.map_congr_left
        intro y hy
        exact ih y (hl0sub y hy)
      rw [cleanElem_eq_filterMap, ← hl0, cleanElem_eq_filterMap]
      by_cases h : t == "channel"
      · rw [if_pos h]
        have hfilter : (l0.map (cleanElem c)).filter (fun y => !(isMatchingItem c y)) =
            l0.map (cleanElem c) := by
          apply List.filter_eq_self.mpr
          intro a ha
          rcases List.mem_map.mp ha with ⟨y, hy, rfl⟩
          rw [Bool.not_eq_eq_eq_not, Bool.not_true, isMatchingItem_cleanElem]
          rw [hl0, if_pos h] at hy
          simpa using (List.mem_filter.mp hy).2
        rw [hfilter, hmapstep]
      · rw [if_neg h, hmapstep]

theorem countElem_cleanElem (c : String) (x : XML) :
    countElem c (cleanElem c x) = 0 := by
  rw [countElem_eq_spec]
  apply List.sum_eq_zero
  intro n hn
  rcases List.mem_map.mp hn with ⟨e, he, rfl⟩
  rcases List.mem_filter.mp he with ⟨hmem, htag⟩
  apply List.countP_eq_zero.mpr
  intro it hit
  simp only [Bool.not_eq_true]
  exact noMatch_in_cleanElem c x e hmem (by simpa using htag) it hit

theorem cleanRoot_idem (c : String) (x : XML) :
    cleanRoot c (cleanRoot c x) = cleanRoot c x := by
  cases x with
  | elem t tx ch =>
      simp only [cleanRoot, cleanChildren_eq_map, List.map_map]
      congr 1
      apply List.map_congr_left
      intro y _
      exact cleanElem_idem c y

theorem countRoot_cleanRoot (c : String) (x : XML) :
    countRoot c (cleanRoot c x) = 0 := by
  cases x with
  | elem t tx ch =>
      simp only [cleanRoot, countRoot, countChildren_eq_sum, cleanChildren_eq_map,
        List.map_map]
      apply List.sum_eq_zero
      intro n hn
      rcases List.mem_map.mp hn with ⟨y, _, rfl⟩
      exact countElem_cleanElem c y

theorem findChild_some {t : String} {l : List XML} {e : XML}
    (h : findChild t l = some e) : e ∈ l ∧ e.tag = t := by
  induction l with
  | nil => simp [findChild] at h
  | cons x xs ih =>
      by_cases hx : x.tag == t
      · rw [findChild, if_pos hx] at h
        obtain rfl : x = e := by simpa using h
        exact ⟨by simp, by simpa using hx⟩
      · rw [findChild, if_neg hx] at h
        rcases ih h with ⟨h1, h2⟩
        exact ⟨by simp [h1], h2⟩

theorem findChild_append_of_some {t : String} {l : List XML} {e : XML}
    (extra : List XML) (h : findChild t l = some e) :
    findChild t (l ++ extra) = some e := by
  induction l with
  | nil => simp [findChild] at h
  | cons x xs ih =>
      by_cases hx : x.tag == t
      · rw [findChild, if_pos hx] at h
        simpa [findChild, hx] using h
      · rw [findChild, if_neg hx] at h
        have := ih h
        rw [List.cons_append, findChild, if_neg hx]
        exact this

theorem hasSparkle_of_matching {c : String} {y : XML}
    (h : isMatchingItem c y = true) :
    (y.tag == "item" && hasSparkleChildText c y) = true := by
  rw [isMatchingItem, Bool.and_eq_true] at h
  rcases h with ⟨htag, hmatch⟩
  rw [Bool.and_eq_true]
  refine ⟨htag, ?_⟩
  cases hres : findChild sparkleChannelTag y.children with
  | none => rw [hres] at hmatch; simp at hmatch
  | some e =>
      rw [hres] at hmatch
      change (e.text == some c) = true at hmatch
      rcases findChild_some hres with ⟨hmem, htage⟩
      rw [hasSparkleChildText, List.any_eq_true]
      exact ⟨e, hmem, by simp [htage, hmatch]⟩

theorem cleanElem_id_of_no_match (c : String) (x : XML)
    (h : ∀ e ∈ elemAndDesc x, (e.tag == "item" && hasSparkleChildText c e) = false) :
    cleanElem c x = x ∧ countElem c x = 0 := by
  induction x using XML.indOn with
  | step t tx ch ih =>
      have hnomatch : ∀ y ∈ ch, isMatchingItem c y = false := by
        intro y hy
        by_contra hc
        rw [Bool.not_eq_false] at hc
        have hmem : y ∈ elemAndDesc (XML.elem t tx ch) := by
          rw [elemAndDesc]
          exact List.mem_cons_of_mem _ (mem_descList.mpr ⟨y, hy, self_mem_elemAndDesc y⟩)
        have hsp := hasSparkle_of_matching hc
        rw [h y hmem] at hsp
        exact Bool.false_ne_true hsp
      have hchsub : ∀ y ∈ ch, ∀ e ∈ elemAndDesc y,
          (e.tag == "item" && hasSparkleChildText c e) = false := by
        intro y hy e he
        apply h
        rw [elemAndDesc]
        exact List.mem_cons_of_mem _ (mem_descList.mpr ⟨y, hy, he⟩)
      have hch : ∀ y ∈ ch, cleanElem c y = y ∧ countElem c y = 0 := by
        intro y hy
        exact ih y hy (hchsub y hy)
      constructor
      · have hfilter : ch.filter (fun y => !(isMatchingItem c y)) = ch := by
          apply List.filter_eq_self.mpr
          intro a ha
          simp [hnomatch a ha]
        have hmapid : ch.map (cleanElem c) = ch := by
          conv_rhs => rw [← List.map_id ch]
          apply List.map_congr_left
          intro y hy
          exact (hch y hy).1
        rw [cleanElem_eq_filterMap]
        by_cases hc : t == "channel"
        · rw [if_pos hc, hfilter, hmapid]
        · rw [if_neg hc, hmapid]
      · rw [countElem, countChildren_eq_sum]
        have hzero : (ch.map (countElem c)).sum = 0 := by
          apply List.sum_eq_zero
          intro n hn
          rcases List.mem_map.mp hn with ⟨y, hy, rfl⟩
          exact (hch y hy).2
        have hcount : ch.countP (isMatchingItem c) = 0 :=
          List.countP_eq_zero.mpr (fun a ha => by simp [hnomatch a ha])
        rw [hzero, hcount]
        simp

theorem lookupFS_writeFS_self (fs : List (String × XML)) (p : String) (d : XML) :
    lookupFS (writeFS fs p d) p = some d := by
  induction fs with
  | nil => simp [writeFS, lookupFS]
  | cons hd rest ih =>
      rcases hd with ⟨q, e⟩
      by_cases h : q == p
      · simp [writeFS, h, lookupFS]
      · simp only [Bool.not_eq_true] at h
        simp [writeFS, h, lookupFS, ih]

theorem writeFS_writeFS_self (fs : List (String × XML)) (p : String) (d d2 : XML) :
    writeFS (writeFS fs p d) p d2 = writeFS fs p d2 := by
  induction fs with
  | nil => simp [writeFS]
  | cons hd rest ih =>
      rcases hd with ⟨q, e⟩
      by_cases h : q == p
      · simp [writeFS, h]
      · simp only [Bool.not_eq_true] at h
        simp [writeFS, h, ih]

/-- A `sparkle:channel` element with the given text. -/
def sparkleOf (s : String) : XML := XML.elem sparkleChannelTag (some s) []

/-- An `item` whose only child is a `sparkle:channel` element with the given
text. -/
def itemWith (s : String) : XML := XML.elem "item" none [sparkleOf s]

/-- An `item` with no Sparkle-channel child at all. -/
def itemPlain : XML := XML.elem "item" none [XML.elem "title" (some "v1") []]

/-- The worked example of the specification: a feed channel with items
tagged `stable`, `edge`, `edge`, and one untagged item. -/
def exampleDoc : XML :=
  XML.elem "rss" none
    [XML.elem "channel" none [itemWith "stable", itemWith "edge", itemWith "edge", itemPlain]]

/-- The specification's worked example behaves as stated: filtering `edge`
removes the two `edge` items, keeps the `stable` and untagged items in
order, and reports a count of 2. -/
theorem spec_example_run :
    countRoot "edge" exampleDoc = 2 ∧
    cleanRoot "edge" exampleDoc =
      XML.elem "rss" none
        [XML.elem "channel" none [itemWith "stable", itemPlain]] := by decide

/-- An item with two Sparkle-channel children: the first says `stable`, the
second says `edge`. -/
def itemTwoSparkle : XML :=
  XML.elem "item" none [sparkleOf "stable", sparkleOf "edge"]

/-- A document whose single feed-channel item carries two Sparkle-channel
children, `stable` first and `edge` second. -/
def docTwoSparkle : XML :=
  XML.elem "rss" none [XML.elem "channel" none [itemTwoSparkle]]

/-- Claim C1 is false as stated: running the filter with target `edge` on
`docTwoSparkle` leaves the document unchanged, yet the written document
still contains, under a feed channel, an `item` with a Sparkle-namespace
`channel` child whose text equals `edge` — the code inspects only the first
such child (`stable` here), so the item survives. -/
theorem c1_counterexample :
    existsBadItem "edge" (cleanRoot "edge" docTwoSparkle) = true ∧
    cleanRoot "edge" docTwoSparkle = docTwoSparkle := by decide

/-- Claim C1 (amended): after a successful run with target channel name
`c`, no `item` that is a direct child of a feed `channel` element the
filter visits (an element tagged `channel` strictly below the root) has a
first Sparkle-namespace `channel` child whose text equals `c`. -/
theorem c1_amended_invariant (c : String) (doc : XML) :
    ∀ e ∈ properDesc (cleanRoot c doc), e.tag = "channel" →
      ∀ it ∈ e.children, isMatchingItem c it = false := by
  intro e he htag it hit
  cases doc with
  | elem t tx ch =>
      rw [cleanRoot, properDesc, XML.children, cleanChildren_eq_map] at he
      rcases mem_descList.mp he with ⟨z, hz, hez⟩
      rcases List.mem_map.mp hz with ⟨y, _, rfl⟩
      exact noMatch_in_cleanElem c y e hez htag it hit

/-- Witness for the amended claim C1 at a concrete run: target `edge`,
document `rss → channel → item(stable)`; the surviving channel's surviving
item does not match `edge`. -/
theorem c1_amended_invariant_witness :
    isMatchingItem "edge" (itemWith "stable") = false :=
  c1_amended_invariant "edge"
    (XML.elem "rss" none [XML.elem "channel" none [itemWith "stable"]])
    (XML.elem "channel" none [itemWith "stable"]) (by decide) (by decide)
    (itemWith "stable") (by decide)

/-- Claim C2 is false as stated: in `docTwoSparkle`, exactly K = 1 direct
item children across all feed channels have a Sparkle-namespace `channel`
child whose text equals `edge` (counted exactly as the claim reads), yet
the run removes nothing and reports a count of 0, because the match uses
only the first Sparkle-channel child. -/
theorem c2_counterexample :
    specCountAny "edge" docTwoSparkle = 1 ∧
    countRoot "edge" docTwoSparkle = 0 ∧
    cleanRoot "edge" docTwoSparkle = docTwoSparkle := by decide

/-- Claim C2 (amended): for every document, the reported removed count
equals K, where K counts — over the feed `channel` elements the filter
visits (those strictly below the root) — the direct `item` children whose
first Sparkle-channel child's text equals the target; and every such item
is removed: no visited feed channel of the written document retains a
matching direct item child. -/
theorem c2_amended_count (c : String) (doc : XML) :
    countRoot c doc = specCountFirst c doc ∧
    ∀ e ∈ properDesc (cleanRoot c doc), e.tag = "channel" →
      e.children.countP (isMatchingItem c) = 0 := by
  constructor
  · cases doc with
    | elem t tx ch =>
        rw [countRoot, specCountFirst, properDesc, XML.children, countChildren_eq_sum,
          spec_sum_descList]
        congr 1
        apply List.map_congr_left
        intro y _
        exact countElem_eq_spec c y
  · intro e he htag
    apply List.countP_eq_zero.mpr
    intro it hit
    simp only [Bool.not_eq_true]
    exact c1_amended_invariant c doc e he htag it hit

/-- Witness for the amended claim C2 at a concrete run: target `edge` on
`rss → channel → [item(edge), item(stable)]`; the count is 1, and the
cleaned channel has no matching item left. -/
theorem c2_amended_count_witness :
    countRoot "edge" (XML.elem "rss" none
        [XML.elem "channel" none [itemWith "edge", itemWith "stable"]]) =
      specCountFirst "edge" (XML.elem "rss" none
        [XML.elem "channel" none [itemWith "edge", itemWith "stable"]]) ∧
    (XML.elem "channel" none [itemWith "stable"]).children.countP
      (isMatchingItem "edge") = 0 :=
  ⟨(c2_amended_count "edge" (XML.elem "rss" none
      [XML.elem "channel" none [itemWith "edge", itemWith "stable"]])).1,
   (c2_amended_count "edge" (XML.elem "rss" none
      [XML.elem "channel" none [itemWith "edge", itemWith "stable"]])).2
     (XML.elem "channel" none [itemWith "stable"]) (by decide) (by decide)⟩

/-- Claim C3: the filter changes nothing except removing matching items —
the root and every processed element keep their tag and text; the root's
direct children are all kept; a visited channel's child list loses exactly
its matching items and keeps everything else in the original relative
order (a sublist of the recursively processed originals); a non-channel
element keeps all its children. -/
theorem c3_frame (c : String) (doc : XML) :
    (cleanRoot c doc).tag = doc.tag ∧
    (cleanRoot c doc).text = doc.text ∧
    (cleanRoot c doc).children = doc.children.map (cleanElem c) ∧
    ∀ x : XML,
      (cleanElem c x).tag = x.tag ∧
      (cleanElem c x).text = x.text ∧
      (cleanElem c x).children =
        ((if x.tag == "channel" then x.children.filter (fun y => !(isMatchingItem c y))
          else x.children).map (cleanElem c)) ∧
      List.Sublist (cleanElem c x).children (x.children.map (cleanElem c)) := by
  refine ⟨?_, ?_, ?_, ?_⟩
  · cases doc with
    | elem t tx ch => simp [cleanRoot, XML.tag]
  · cases doc with
    | elem t tx ch => simp [cleanRoot, XML.text]
  · cases doc with
    | elem t tx ch => simp [cleanRoot, XML.children, cleanChildren_eq_map]
  · intro x
    refine ⟨tag_cleanElem c x, text_cleanElem c x, ?_, ?_⟩
    · cases x with
      | elem t tx ch => simpa [XML.tag, XML.children] using children_cleanElem c t tx ch
    · cases x with
      | elem t tx ch =>
          rw [children_cleanElem]
          simp only [XML.children]
          by_cases h : t == "channel"
          · rw [if_pos h]
            exact List.Sublist.map _ (List.filter_sublist ch)
          · rw [if_neg h]

/-- An item whose first Sparkle-channel child says `stable` but which also
contains a nested feed channel holding an `edge` item. -/
def itemNested : XML :=
  XML.elem "item" none
    [sparkleOf "stable", XML.elem "channel" none [itemWith "edge"]]

/-- A document whose feed channel holds `itemNested`. -/
def docNested : XML :=
  XML.elem "rss" none [XML.elem "channel" none [itemNested]]

/-- Claim C4 is false as stated: in `docNested` with target `edge`, the
item's Sparkle-channel text is `stable` (it differs from the target), so
the claim demands it be retained UNCHANGED — it is retained, but not
unchanged: the filter also visits the feed channel nested inside it and
removes the `edge` item there, so the item in the written document differs
from the input item. -/
theorem c4_counterexample :
    findChild sparkleChannelTag itemNested.children = some (sparkleOf "stable") ∧
    cleanRoot "edge" docNested =
      XML.elem "rss" none
        [XML.elem "channel" none
          [XML.elem "item" none [sparkleOf "stable", XML.elem "channel" none []]]] ∧
    cleanElem "edge" itemNested ≠ itemNested := by decide

/-- Claim C4 (amended): an item whose first Sparkle-channel child's text
differs from the target in any way (case included) is never removed from
its parent feed channel, and keeps its tag and its text; it is otherwise
changed only by the filter's own recursive removals inside feed channels
nested within it. -/
theorem c4_amended_retained (c : String) (x it : XML) (hit : it ∈ x.children)
    (e : XML) (hfind : findChild sparkleChannelTag it.children = some e)
    (hne : e.text ≠ some c) :
    cleanElem c it ∈ (cleanElem c x).children ∧
    (cleanElem c it).tag = it.tag ∧ (cleanElem c it).text = it.text := by
  have hm : isMatchingItem c it = false := by
    rw [isMatchingItem, hfind]
    simp [hne]
  exact ⟨cleanElem_mem_of_not_matching hit hm, tag_cleanElem c it, text_cleanElem c it⟩

/-- Witness for the amended claim C4: target `edge`, channel containing a
`Edge`-tagged item (differing from the target only in case); the processed
item stays among the processed channel's children with tag and text
intact. -/
theorem c4_amended_retained_witness :
    cleanElem "edge" (itemWith "Edge") ∈
      (cleanElem "edge" (XML.elem "channel" none [itemWith "Edge"])).children ∧
    (cleanElem "edge" (itemWith "Edge")).tag = (itemWith "Edge").tag ∧
    (cleanElem "edge" (itemWith "Edge")).text = (itemWith "Edge").text :=
  c4_amended_retained "edge" (XML.elem "channel" none [itemWith "Edge"])
    (itemWith "Edge") (by decide) (sparkleOf "Edge") (by decide) (by decide)

/-- Claim C5: an item with no Sparkle-namespace `channel` child element is
never removed: whenever such an item is a direct child of any element, its
processed form is still among the processed element's children, whatever
the target channel name. -/
theorem c5_no_sparkle_never_removed (c : String) (x it : XML) (hit : it ∈ x.children)
    (_htag : it.tag = "item")
    (hnone : findChild sparkleChannelTag it.children = none) :
    cleanElem c it ∈ (cleanElem c x).children := by
  have hm : isMatchingItem c it = false := by
    rw [isMatchingItem, hnone]
    simp
  exact cleanElem_mem_of_not_matching hit hm

/-- Witness for claim C5: target `edge`, channel containing the untagged
item; the item survives. -/
theorem c5_no_sparkle_never_removed_witness :
    cleanElem "edge" itemPlain ∈
      (cleanElem "edge" (XML.elem "channel" none [itemWith "edge", itemPlain])).children :=
  c5_no_sparkle_never_removed "edge"
    (XML.elem "channel" none [itemWith "edge", itemPlain]) itemPlain
    (by decide) (by decide) (by decide)

/-- Claim C6: running the filter twice in succession on the same file with
the same channel name is idempotent — the second run succeeds, reports a
removed count of 0, and leaves the file system exactly as the first run
wrote it. -/
theorem c6_idempotent (c p : String) (fs : List (String × XML)) (doc : XML)
    (h : lookupFS fs p = some doc) :
    (clean_appcast (clean_appcast fs p c).fs p c).fs = (clean_appcast fs p c).fs ∧
    (clean_appcast (clean_appcast fs p c).fs p c).stdout = [successMessage 0 c p] ∧
    (clean_appcast (clean_appcast fs p c).fs p c).exitCode = 0 := by
  have h1 : clean_appcast fs p c =
      ⟨0, [successMessage (countRoot c doc) c p], [],
        writeFS fs p (cleanRoot c doc)⟩ := by
    rw [clean_appcast, h]
  have h2 : lookupFS (writeFS fs p (cleanRoot c doc)) p = some (cleanRoot c doc) :=
    lookupFS_writeFS_self fs p (cleanRoot c doc)
  have h3 : clean_appcast (writeFS fs p (cleanRoot c doc)) p c =
      ⟨0, [successMessage (countRoot c (cleanRoot c doc)) c p], [],
        writeFS (writeFS fs p (cleanRoot c doc)) p (cleanRoot c (cleanRoot c doc))⟩ := by
    rw [clean_appcast, h2]
  rw [h1]
  simp only [h3]
  refine ⟨?_, ?_, trivial⟩
  · rw [cleanRoot_idem, writeFS_writeFS_self]
  · rw [countRoot_cleanRoot]

/-- Witness for claim C6 at a concrete run: the worked example document at
path `appcast.xml`, filtered twice for `edge`. -/
theorem c6_idempotent_witness :
    (clean_appcast (clean_appcast [("appcast.xml", exampleDoc)] "appcast.xml" "edge").fs
        "appcast.xml" "edge").fs =
      (clean_appcast [("appcast.xml", exampleDoc)] "appcast.xml" "edge").fs ∧
    (clean_appcast (clean_appcast [("appcast.xml", exampleDoc)] "appcast.xml" "edge").fs
        "appcast.xml" "edge").stdout = [successMessage 0 "edge" "appcast.xml"] ∧
    (clean_appcast (clean_appcast [("appcast.xml", exampleDoc)] "appcast.xml" "edge").fs
        "appcast.xml" "edge").exitCode = 0 :=
  c6_idempotent "edge" "appcast.xml" [("appcast.xml", exampleDoc)] exampleDoc (by decide)

/-- Claim C7: when no item anywhere in the document has a Sparkle-channel
child whose text equals the target, the run reports a removed count of 0
and the written document equals the input document. -/
theorem c7_no_match_noop (c : String) (doc : XML)
    (h : existsMatchingItemAnywhere c doc = false) :
    countRoot c doc = 0 ∧ cleanRoot c doc = doc := by
  cases doc with
  | elem t tx ch =>
      have hall : ∀ e ∈ elemAndDesc (XML.elem t tx ch),
          (e.tag == "item" && hasSparkleChildText c e) = false := by
        rw [existsMatchingItemAnywhere] at h
        intro e he
        rcases List.any_eq_false.mp h e he with hfe
        simpa using hfe
      have hch : ∀ y ∈ ch, cleanElem c y = y ∧ countElem c y = 0 := by
        intro y hy
        apply cleanElem_id_of_no_match
        intro e he
        apply hall
        rw [elemAndDesc]
        exact List.mem_cons_of_mem _ (mem_descList.mpr ⟨y, hy, he⟩)
      constructor
      · rw [countRoot, countChildren_eq_sum]
        apply List.sum_eq_zero
        intro n hn
        rcases List.mem_map.mp hn with ⟨y, hy, rfl⟩
        exact (hch y hy).2
      · rw [cleanRoot, cleanChildren_eq_map]
        congr 1
        conv_rhs => rw [← List.map_id ch]
        apply List.map_congr_left
        intro y hy
        exact (hch y hy).1

/-- Witness for claim C7: target `beta` on the worked example document
(whose items are tagged `stable`, `edge`, `edge`, or untagged): count 0 and
an unchanged document. -/
theorem c7_no_match_noop_witness :
    countRoot "beta" exampleDoc = 0 ∧ cleanRoot "beta" exampleDoc = exampleDoc :=
  c7_no_match_noop "beta" exampleDoc (by decide)

/-- Claim C8: invoking the program on a path with no file behind it exits
with status 1, prints the file-not-found line to the error stream, prints
nothing to standard output, and leaves the file system untouched (no file
is created or modified at that path or anywhere else). -/
theorem c8_file_not_found (prog p c : String) (fs : List (String × XML))
    (h : lookupFS fs p = none) :
    main [prog, p, c] fs = ⟨1, [], ["✗ File not found: " ++ p], fs⟩ := by
  rw [main, if_neg (by simp)]
  have hp : ([prog, p, c].getD 1 "") = p := rfl
  have hc : ([prog, p, c].getD 2 "") = c := rfl
  rw [hp, hc, clean_appcast, h]

/-- Witness for claim C8: an empty file system and the path
`missing.xml`. -/
theorem c8_file_not_found_witness :
    main ["clean_appcast.py", "missing.xml", "edge"] [] =
      ⟨1, [], ["✗ File not found: missing.xml"], []⟩ :=
  c8_file_not_found "clean_appcast.py" "missing.xml" "edge" [] rfl

/-- Claim C9: whenever `sys.argv` does not hold exactly the program name
plus two positional arguments, the program prints the usage lines to
standard output, exits with status 1, and neither reads nor writes any
file — the file system is returned untouched. -/
theorem c9_usage (argv : List String) (fs : List (String × XML))
    (h : argv.length ≠ 3) :
    main argv fs = ⟨1, usageLines, [], fs⟩ := by
  rw [main, if_pos (by simpa using h)]

/-- Witness for claim C9: a single-argument invocation against a file
system holding the worked example; the usage text appears and the file
system is unchanged. -/
theorem c9_usage_witness :
    main ["clean_appcast.py"] [("appcast.xml", exampleDoc)] =
      ⟨1, usageLines, [], [("appcast.xml", exampleDoc)]⟩ :=
  c9_usage ["clean_appcast.py"] [("appcast.xml", exampleDoc)] (by decide)

/-- Claim C10: only the first Sparkle-namespace `channel` child of an item
decides the match — appending any further children after a present first
Sparkle-channel child never changes the decision — and when that first
child is an empty element (text `None`), the item is retained for every
target channel string. -/
theorem c10_first_child_only (c : String) :
    (∀ (t : String) (tx : Option String) (ch extra : List XML) (e : XML),
      findChild sparkleChannelTag ch = some e →
        isMatchingItem c (XML.elem t tx (ch ++ extra)) =
          isMatchingItem c (XML.elem t tx ch)) ∧
    (∀ x it : XML, it ∈ x.children → ∀ e : XML,
      findChild sparkleChannelTag it.children = some e → e.text = none →
        cleanElem c it ∈ (cleanElem c x).children) := by
  constructor
  · intro t tx ch extra e hfind
    rw [isMatchingItem, isMatchingItem, XML.tag, XML.tag, XML.children, XML.children,
      findChild_append_of_some extra hfind, hfind]
  · intro x it hit e hfind htext
    apply cleanElem_mem_of_not_matching hit
    rw [isMatchingItem, hfind]
    simp [htext]

/-- Witness for claim C10: appending a second Sparkle-channel child saying
`edge` after a first saying `stable` leaves the decision unchanged, and an
item whose Sparkle-channel child is an empty element survives filtering
for `edge`. -/
theorem c10_first_child_only_witness :
    isMatchingItem "edge"
        (XML.elem "item" none ([sparkleOf "stable"] ++ [sparkleOf "edge"])) =
      isMatchingItem "edge" (XML.elem "item" none [sparkleOf "stable"]) ∧
    cleanElem "edge" (XML.elem "item" none [XML.elem sparkleChannelTag none []]) ∈
      (cleanElem "edge"
        (XML.elem "channel" none
          [XML.elem "item" none [XML.elem sparkleChannelTag none []]])).children :=
  ⟨(c10_first_child_only "edge").1 "item" none [sparkleOf "stable"] [sparkleOf "edge"]
      (sparkleOf "stable") (by decide),
   (c10_first_child_only "edge").2
      (XML.elem "channel" none [XML.elem "item" none [XML.elem sparkleChannelTag none []]])
      (XML.elem "item" none [XML.elem sparkleChannelTag none []]) (by decide)
      (XML.elem sparkleChannelTag none []) (by decide) (by decide)⟩

end AppcastClean
